import Mathlib

/-!
Verification of the AIJobHunt ingestion/normalization core and frontend
search components against the repository's specification.

The ingestion core (source adapters, schema normalizer, deduplicator,
filter engine, ingestion orchestrator) is described by the specification
and the API integration documentation; its executable code is not part of
the checked-out sources, so the core is modelled from the spec below.
The frontend components (PreferencesForm, Search page) are translated
directly from the JSX sources.
-/

namespace AIJobHunt

/-- Modelled from the spec: the enum of the eight job-board providers
(§3 `source_name`). -/
inductive SourceName
  | adzuna
  | theMuse
  | usaJobs
  | arbeitnow
  | remotive
  | jobicy
  | serpApi
  | remoteOK
deriving DecidableEq, Repr

/-- Modelled from the spec: the canonical Unified Job Record (§3).
Timestamps are modelled as natural numbers; `extra` is the opaque
source-specific mapping. -/
structure UnifiedJobRecord where
  source_id : String
  source_name : SourceName
  title : String
  company : String
  location : String
  description : String
  tags : List String
  url : String
  salary_min : Option Nat
  salary_max : Option Nat
  posted_at : Option Nat
  extra : List (String × String)
deriving DecidableEq, Repr

/-- ASCII lowercase of one character. -/
def lowerChar (c : Char) : Char :=
  if 'A' ≤ c ∧ c ≤ 'Z' then Char.ofNat (c.toNat + 32) else c

/-- ASCII lowercase of a string. -/
def lowerStr (s : String) : String :=
  ⟨s.toList.map lowerChar⟩

/-- Modelled from the spec: the deduplication key — normalized lowercase
`title`, normalized lowercase `company`, normalized `location` (§3). -/
def dedupKey (r : UnifiedJobRecord) : String × String × String :=
  (lowerStr r.title, lowerStr r.company, r.location)

/-- Modelled from the spec: the fixed source-priority order for the dedup
merge policy (§4.3): Adzuna > The Muse > USAJobs > Arbeitnow > Remotive >
Jobicy > SerpAPI > RemoteOK. Lower number = higher priority. -/
def sourcePriority : SourceName → Nat
  | .adzuna => 0
  | .theMuse => 1
  | .usaJobs => 2
  | .arbeitnow => 3
  | .remotive => 4
  | .jobicy => 5
  | .serpApi => 6
  | .remoteOK => 7

/-- Modelled from the spec: alphabetical rank of the eight fixed provider
names (Adzuna, Arbeitnow, Jobicy, RemoteOK, Remotive, SerpAPI, The Muse,
USAJobs), used by the dedupe ordering tie-break (§4.3). -/
def alphaRank : SourceName → Nat
  | .adzuna => 0
  | .arbeitnow => 1
  | .jobicy => 2
  | .remoteOK => 3
  | .remotive => 4
  | .serpApi => 5
  | .theMuse => 6
  | .usaJobs => 7

/-- Sort key realizing the dedupe output order contract (§4.3): descending
`posted_at` (encoded as a negated integer, so larger timestamps come
first), undated records last (encoded as `1`, above every `-t ≤ 0`), ties
broken by source-name alphabetical order. -/
def sortKey (r : UnifiedJobRecord) : Int × Nat :=
  (match r.posted_at with
   | some t => -(t : Int)
   | none => 1,
   alphaRank r.source_name)

/-- The dedupe output ordering relation (§4.3): lexicographic on
`sortKey`. -/
def recLe (a b : UnifiedJobRecord) : Prop :=
  (sortKey a).1 < (sortKey b).1 ∨
    ((sortKey a).1 = (sortKey b).1 ∧ (sortKey a).2 ≤ (sortKey b).2)

instance : DecidableRel recLe := fun a b => by
  unfold recLe
  infer_instance

instance : IsTotal UnifiedJobRecord recLe :=
  ⟨fun a b => by unfold recLe; omega⟩

instance : IsTrans UnifiedJobRecord recLe :=
  ⟨fun a b c h1 h2 => by
    unfold recLe at h1 h2 ⊢
    omega⟩

/-- Modelled from the spec: salary-data completeness used by the merge
policy (§4.3) — both `salary_min` and `salary_max` present. -/
def salaryComplete (r : UnifiedJobRecord) : Bool :=
  r.salary_min.isSome && r.salary_max.isSome

/-- Modelled from the spec: non-empty description, the second merge-policy
tie-break (§4.3). -/
def hasDescription (r : UnifiedJobRecord) : Bool :=
  decide (r.description ≠ "")

/-- Modelled from the spec: `betterBase a b` holds when `a` strictly
precedes `b` under the merge policy (§4.3): most complete salary data,
then non-empty description, then the fixed source-priority order. -/
def betterBase (a b : UnifiedJobRecord) : Bool :=
  if salaryComplete a ≠ salaryComplete b then salaryComplete a
  else if hasDescription a ≠ hasDescription b then hasDescription a
  else decide (sourcePriority a.source_name < sourcePriority b.source_name)

/-- Modelled from the spec: select the base (surviving) member of a
dedup group per the merge policy (§4.3); earlier members win ties. -/
def pickBase (h : UnifiedJobRecord) (t : List UnifiedJobRecord) : UnifiedJobRecord :=
  t.foldl (fun acc r => if betterBase r acc then r else acc) h

/-- Modelled from the spec: merge one dedup group — the base member keeps
its fields and the `tags` of all members are unioned (deduplicated,
first occurrence kept) into the survivor (§4.3). -/
def mergeGroup (h : UnifiedJobRecord) (t : List UnifiedJobRecord) : UnifiedJobRecord :=
  { pickBase h t with tags := (((h :: t).map UnifiedJobRecord.tags).flatten).dedup }

/-- Merge of a possibly-empty group; `none` on the empty list (which never
arises for groups formed from an occurring key). -/
def mergeList : List UnifiedJobRecord → Option UnifiedJobRecord
  | [] => none
  | h :: t => some (mergeGroup h t)

/-- The dedup group of one key: the records carrying that key, in input
order (§4.3). -/
def groupFor (rs : List UnifiedJobRecord) (k : String × String × String) :
    List UnifiedJobRecord :=
  rs.filter (fun r => decide (dedupKey r = k))

/-- One merged survivor per occurring key, in first-occurrence key
order (§4.3). -/
def survivors (rs : List UnifiedJobRecord) : List UnifiedJobRecord :=
  ((rs.map dedupKey).dedup).filterMap (fun k => mergeList (groupFor rs k))

/-- Modelled from the spec: the Deduplicator (§4.3). Groups records by
`dedupKey`, merges each group per the merge policy, and orders the output
by descending `posted_at`, undated records last, ties broken by
source-name alphabetical order. -/
def dedupe (rs : List UnifiedJobRecord) : List UnifiedJobRecord :=
  List.insertionSort recLe (survivors rs)

/-! ## Filter Engine (§4.4) -/

/-- Modelled from the spec: the Filter Engine criteria configuration
(§4.4): keywords (OR semantics, case-insensitive substring), locations,
optional salary floor/ceiling, remote-only flag. -/
structure Criteria where
  keywords : List String
  locations : List String
  salary_min_floor : Option Nat
  salary_max_ceiling : Option Nat
  remote_only : Bool
deriving DecidableEq, Repr

/-- Case-insensitive substring test used by keyword matching (§4.4). -/
def containsIC (s pat : String) : Bool :=
  decide ((lowerStr pat).toList <:+: (lowerStr s).toList)

/-- Modelled from the spec: keyword criterion — no keywords means no
constraint; otherwise some keyword must occur (case-insensitively) in the
title or description (§4.4, OR semantics). -/
def keywordPass (c : Criteria) (r : UnifiedJobRecord) : Bool :=
  c.keywords.isEmpty ||
    c.keywords.any (fun kw => containsIC r.title kw || containsIC r.description kw)

/-- Modelled from the spec: location criterion — no locations means no
constraint; otherwise some requested location must match the record's
location case-insensitively (§4.4). -/
def locationPass (c : Criteria) (r : UnifiedJobRecord) : Bool :=
  c.locations.isEmpty ||
    c.locations.any (fun l => lowerStr l == lowerStr r.location)

/-- Modelled from the spec: salary criterion (§4.4) — keep the record when
`salary_max` is absent or at least the floor, and `salary_min` is absent
or at most the ceiling; absent salary data never disqualifies. -/
def salaryPass (c : Criteria) (r : UnifiedJobRecord) : Bool :=
  (match c.salary_min_floor with
   | none => true
   | some f =>
     match r.salary_max with
     | none => true
     | some m => decide (f ≤ m)) &&
  (match c.salary_max_ceiling with
   | none => true
   | some ceil =>
     match r.salary_min with
     | none => true
     | some m => decide (m ≤ ceil))

/-- Modelled from the spec: remote-only criterion — when set, only records
whose location is `"Remote"` pass (§4.4, §8). -/
def remotePass (c : Criteria) (r : UnifiedJobRecord) : Bool :=
  !c.remote_only || r.location == "Remote"

/-- Conjunction of all filter criteria for one record (§4.4). -/
def filterMatches (c : Criteria) (r : UnifiedJobRecord) : Bool :=
  keywordPass c r && locationPass c r && salaryPass c r && remotePass c r

/-- Modelled from the spec: the Filter Engine (§4.4) — keeps the records
matching the criteria, preserving the input (Deduplicator's) order. -/
def filterEngine (c : Criteria) (rs : List UnifiedJobRecord) : List UnifiedJobRecord :=
  rs.filter (filterMatches c)

/-! ## Schema Normalizer (§4.2) -/

/-- Drop leading and trailing whitespace from a character list. -/
def trimChars (l : List Char) : List Char :=
  ((l.dropWhile Char.isWhitespace).reverse.dropWhile Char.isWhitespace).reverse

/-- Split a character list on a separator character. -/
def splitOnChar (sep : Char) : List Char → List (List Char)
  | [] => [[]]
  | c :: rest =>
    let r := splitOnChar sep rest
    if c = sep then [] :: r
    else
      match r with
      | [] => [[c]]
      | h :: t => (c :: h) :: t

/-- Parse a non-empty all-digit character list as a natural number. -/
def digitsToNat (l : List Char) : Option Nat :=
  if l.isEmpty then none
  else if l.all Char.isDigit then
    some (l.foldl (fun acc c => acc * 10 + (c.toNat - '0'.toNat)) 0)
  else none

/-- Modelled from the spec: parse one monetary token of a salary string —
optional `$` prefix, digits, optional magnitude suffix `k`/`K` = ×1000
(§4.2). `none` when unparseable. -/
def parseMoney (l0 : List Char) : Option Nat :=
  let l1 := trimChars l0
  let l2 :=
    match l1 with
    | '$' :: rest => rest
    | other => other
  let l3 := trimChars l2
  match l3.reverse with
  | c :: rest =>
    if c = 'k' ∨ c = 'K' then
      (digitsToNat (trimChars rest.reverse)).map (fun n => n * 1000)
    else
      digitsToNat l3
  | [] => none

/-- Modelled from the spec: the salary-string parser (§4.2) — splits on
the range separator `-`, parses each side with `parseMoney`; a single
parseable value yields equal bounds; any unparseable string yields
`(none, none)` rather than a failure. -/
def parseSalaryString (s : String) : Option Nat × Option Nat :=
  match splitOnChar '-' s.toList with
  | [a, b] =>
    match parseMoney a, parseMoney b with
    | some x, some y => (some x, some y)
    | _, _ => (none, none)
  | [a] =>
    match parseMoney a with
    | some x => (some x, some x)
    | none => (none, none)
  | _ => (none, none)

/-- Modelled from the spec: enforce the salary invariant (§3) — when both
bounds are present in the wrong order they are swapped, never silently
inverted; other shapes pass through. -/
def fixSalary (mn mx : Option Nat) : Option Nat × Option Nat :=
  match mn, mx with
  | some a, some b => if b < a then (some b, some a) else (some a, some b)
  | a, b => (a, b)

/-- Modelled from the spec: strip HTML tags from a description (§4.2) —
characters between `<` and `>` are dropped. -/
def stripHtml (s : String) : String :=
  ⟨((s.toList.foldl
      (fun (st : Bool × List Char) c =>
        if c = '<' then (true, st.2)
        else if c = '>' then (false, st.2)
        else if st.1 then st else (false, c :: st.2))
      (false, [])).2).reverse⟩

/-- Modelled from the spec: collapse whitespace runs to single spaces and
trim leading/trailing whitespace (§4.2). -/
def collapseWs (s : String) : String :=
  let l :=
    (s.toList.foldl
      (fun (st : Bool × List Char) c =>
        if c.isWhitespace then
          if st.1 then st else (true, ' ' :: st.2)
        else (false, c :: st.2))
      (true, [])).2
  ⟨(match l with
    | ' ' :: rest => rest
    | other => other).reverse⟩

/-- Modelled from the spec: description cleaning (§4.2) — HTML stripped to
plain text, whitespace collapsed and trimmed. -/
def cleanDescription (s : String) : String :=
  collapseWs (stripHtml s)

/-- Modelled from the spec: tag normalization (§3) — case-normalized to
lowercase, empty strings removed, deduplicated. -/
def normalizeTags (tags : List String) : List String :=
  ((tags.map lowerStr).filter (fun t => decide (t ≠ ""))).dedup

/-- Modelled from the spec: a source adapter's raw payload item (§4.1) —
the fields the eight providers expose, with salary either as numeric
bounds or as a raw string, and a remote-only indicator. -/
structure RawItem where
  id : String
  title : String
  company : String
  location : String
  remote : Bool
  description : String
  tags : List String
  url : String
  salary_min : Option Nat
  salary_max : Option Nat
  salary_str : Option String
  posted_at : Option Nat
deriving DecidableEq, Repr

/-- Modelled from the spec: the per-item `NormalizationError` (§4.2, §7).
A record is never emitted with both `title` and `company` empty (§3). -/
inductive NormError
  | missingIdentity
deriving DecidableEq, Repr

/-- Modelled from the spec: the Schema Normalizer (§4.2) — a pure
per-source field mapping into the Unified Job Record: location normalized
to `"Remote"` for remote-only items, description cleaned, tags
normalized, numeric salary fields used directly, string salaries parsed,
and the salary invariant enforced by `fixSalary`. -/
def normalize (source : SourceName) (raw : RawItem) : Except NormError UnifiedJobRecord :=
  if raw.title = "" ∧ raw.company = "" then
    .error .missingIdentity
  else
    let sal :=
      if raw.salary_min.isSome || raw.salary_max.isSome then
        fixSalary raw.salary_min raw.salary_max
      else
        match raw.salary_str with
        | some s =>
          let p := parseSalaryString s
          fixSalary p.1 p.2
        | none => (none, none)
    .ok
      { source_id := raw.id
        source_name := source
        title := raw.title
        company := raw.company
        location := if raw.remote then "Remote" else raw.location
        description := cleanDescription raw.description
        tags := normalizeTags raw.tags
        url := raw.url
        salary_min := sal.1
        salary_max := sal.2
        posted_at := raw.posted_at
        extra := [] }

/-! ## Ingestion Orchestrator (§4.5, §7) -/

/-- Modelled from the spec: the fetch error taxonomy (§7) — transient
(retryable) vs. permanent (not retryable). -/
inductive FetchError
  | transient
  | permanent
deriving DecidableEq, Repr

/-- Modelled from the spec: the final outcome of one source after the
adapter/retry phase (§4.1, §4.5). -/
inductive FetchOutcome
  | ok (items : List RawItem)
  | err (e : FetchError)
deriving DecidableEq, Repr

/-- Modelled from the spec: per-source terminal status in the run report
(§4.5). -/
inductive SourceStatus
  | success
  | failed
deriving DecidableEq, Repr

/-- Modelled from the spec: one entry of the per-source run report (§4.5):
status plus the `ErrorKind` for failed sources. -/
structure SourceReport where
  source : SourceName
  status : SourceStatus
  errorKind : Option FetchError
deriving DecidableEq, Repr

/-- Modelled from the spec: the fixed list of the eight sources, in the
source-priority order (§4.3). -/
def allSources : List SourceName :=
  [.adzuna, .theMuse, .usaJobs, .arbeitnow, .remotive, .jobicy, .serpApi, .remoteOK]

/-- Modelled from the spec: normalize a batch, dropping only the items
with per-item `NormalizationError` (§4.2, §7). -/
def normalizeBatch (s : SourceName) (items : List RawItem) : List UnifiedJobRecord :=
  items.filterMap (fun it => (normalize s it).toOption)

/-- Records contributed by one source: its normalized batch on success,
nothing on failure (§4.5). -/
def sourceRecords (fetch : SourceName → FetchOutcome) (s : SourceName) :
    List UnifiedJobRecord :=
  match fetch s with
  | .ok items => normalizeBatch s items
  | .err _ => []

/-- Report entry for one source (§4.5): `success` with no error kind, or
`failed` carrying the `ErrorKind`. -/
def sourceReport (fetch : SourceName → FetchOutcome) (s : SourceName) : SourceReport :=
  match fetch s with
  | .ok _ => ⟨s, .success, none⟩
  | .err e => ⟨s, .failed, some e⟩

/-- Modelled from the spec: the Ingestion Orchestrator's run (§4.5) —
each source is processed independently; the union of the successful
sources' normalized records is deduplicated and filtered, and a
per-source status report is always returned. -/
def runIngest (fetch : SourceName → FetchOutcome) (c : Criteria) :
    List UnifiedJobRecord × List SourceReport :=
  (filterEngine c (dedupe ((allSources.map (sourceRecords fetch)).flatten)),
   allSources.map (sourceReport fetch))

/-! ## Per-source retry state machine (§4.5) -/

/-- Modelled from the spec: the result of one fetch attempt (§4.1). -/
inductive AttemptResult
  | ok
  | err (e : FetchError)
deriving DecidableEq, Repr

/-- Modelled from the spec: capped number of attempts for transient
failures (§4.5, "e.g., 3 attempts"). -/
def maxAttempts : Nat := 3

/-- Modelled from the spec: the exponential-backoff base delay (§4.5),
in milliseconds. -/
def baseDelay : Nat := 1000

/-- Modelled from the spec: exponential backoff — the delay before retry
attempt `n` doubles each time (§4.5). -/
def backoffDelay (attempt : Nat) : Nat :=
  baseDelay * 2 ^ attempt

/-- Modelled from the spec: the per-source orchestrator states (§4.5),
with `fetching`/`retrying` carrying the zero-based attempt index. -/
inductive SourceState
  | pending
  | fetching (attempt : Nat)
  | retrying (attempt : Nat)
  | success
  | failed
deriving DecidableEq, Repr

/-- Modelled from the spec: the per-source state machine (§4.5):
`PENDING → FETCHING → (SUCCESS | RETRYING → FETCHING | FAILED)`;
`RETRYING` only on `TransientFetchError` while attempts remain,
`PermanentFetchError` goes directly to `FAILED`. `o n` is the outcome of
attempt `n`. -/
def stepSource (o : Nat → AttemptResult) : SourceState → SourceState
  | .pending => .fetching 0
  | .fetching n =>
    match o n with
    | .ok => .success
    | .err .permanent => .failed
    | .err .transient => if n + 1 < maxAttempts then .retrying n else .failed
  | .retrying n => .fetching (n + 1)
  | .success => .success
  | .failed => .failed

/-! ## Frontend: PreferencesForm (frontend source) -/

/-- The preferences form data (PreferencesForm source): tag lists plus the
two salary fields, modelled after JavaScript `Number` coercion as
integers. -/
structure PrefsFormData where
  target_roles : List String
  desired_locations : List String
  skills : List String
  salary_min : Int
  salary_max : Int
deriving DecidableEq, Repr

/-- JavaScript truthiness of a number: falsy exactly at 0 (PreferencesForm
source, `value && min && ...`). -/
def jsTruthy (n : Int) : Bool :=
  n != 0

/-- Translated from the PreferencesForm source: the `salary_max` validate
function — the `value < min` comparison runs only when both `value` and
the watched `salary_min` are truthy; then the 500000 cap is checked;
otherwise the field validates. `true` means accepted. -/
def validateSalaryMax (value mn : Int) : Bool :=
  if jsTruthy value && jsTruthy mn && decide (value < mn) then false
  else if decide ((value : Int) > 500000) then false
  else true

/-- Translated from the PreferencesForm source: `onSubmit` builds
`formattedData` by `Number`-coercing the two salary fields (identity in
the integer model) and passes it to `onSearch`. -/
def onSubmitFormat (d : PrefsFormData) : PrefsFormData :=
  { d with salary_min := d.salary_min, salary_max := d.salary_max }

/-! ## Frontend: Search page `handleSearch` (frontend source) -/

/-- The Search page state touched by `handleSearch`: the results list
(job payloads modelled opaquely as strings), the error banner text, and
the searching flag. -/
structure SearchState where
  results : List String
  searchError : String
  searching : Bool
deriving DecidableEq, Repr

/-- The fallback error message of `handleSearch` (Search page source). -/
def searchFallbackMsg : String := "Failed to fetch job matches."

/-- Translated from the Search page source: `handleSearch` sets
`searching := true` and clears `searchError`, then on a successful POST
stores the response data in `results`, and on a failed POST sets
`searchError` to the server's `detail` or the fallback message, leaving
`results` untouched; `finally` resets `searching := false` on both
paths. -/
def handleSearch (st : SearchState) (resp : Except (Option String) (List String)) :
    SearchState :=
  let st1 := { st with searching := true }
  let st2 := { st1 with searchError := "" }
  match resp with
  | .ok data =>
    let st3 := { st2 with results := data }
    { st3 with searching := false }
  | .error detail =>
    let st3 := { st2 with searchError := detail.getD searchFallbackMsg }
    { st3 with searching := false }

/-! ## Concrete scenario data -/

/-- The Adzuna record of the §8 dedupe scenario. -/
def recAdzunaSE : UnifiedJobRecord :=
  { source_id := "a1"
    source_name := .adzuna
    title := "Software Engineer"
    company := "Acme"
    location := "Seattle"
    description := "Build services."
    tags := ["python", "backend"]
    url := "https://example.com/a1"
    salary_min := some 90000
    salary_max := some 120000
    posted_at := none
    extra := [] }

/-- The RemoteOK record of the §8 dedupe scenario — same title, company
and location, no salary data. -/
def recRemoteOKSE : UnifiedJobRecord :=
  { source_id := "b1"
    source_name := .remoteOK
    title := "Software Engineer"
    company := "Acme"
    location := "Seattle"
    description := "Build services remotely."
    tags := ["remote", "backend"]
    url := "https://example.com/b1"
    salary_min := none
    salary_max := none
    posted_at := none
    extra := [] }

/-- A raw payload whose salary is the unparseable string
`"Competitive"` (§8 scenario). -/
def rawCompetitiveItem : RawItem :=
  { id := "r1"
    title := "Data Scientist"
    company := "Initech"
    location := "Austin"
    remote := false
    description := "Analyze data."
    tags := ["data"]
    url := "https://example.com/r1"
    salary_min := none
    salary_max := none
    salary_str := some "Competitive"
    posted_at := some 100 }

/-- A record with no salary data, for the permissive-salary witness. -/
def recNoSalary : UnifiedJobRecord :=
  { source_id := "n1"
    source_name := .remotive
    title := "DevOps Engineer"
    company := "Globex"
    location := "Remote"
    description := ""
    tags := []
    url := "https://example.com/n1"
    salary_min := none
    salary_max := none
    posted_at := some 5
    extra := [] }

/-- A criteria configuration with both salary bounds set. -/
def salaryCriteria : Criteria :=
  { keywords := []
    locations := []
    salary_min_floor := some 50000
    salary_max_ceiling := some 150000
    remote_only := false }

/-- An unconstrained criteria configuration. -/
def emptyCriteria : Criteria :=
  { keywords := []
    locations := []
    salary_min_floor := none
    salary_max_ceiling := none
    remote_only := false }

/-! ## Claim theorems: normalizer and filter scenarios -/

/-- C4: the salary parser maps `"$120k - $160k"` to
`salary_min = 120000`, `salary_max = 160000`, and any unparseable string
such as `"Competitive"` to `(none, none)`; normalizing an item with such
a salary string succeeds (the batch is not failed) and yields a record
with both salary bounds absent. -/
theorem salary_parser_scenarios :
    parseSalaryString "$120k - $160k" = (some 120000, some 160000) ∧
    parseSalaryString "Competitive" = (none, none) ∧
    (normalize .remotive rawCompetitiveItem).toOption.map
        (fun r => (r.salary_min, r.salary_max)) = some (none, none) := by
  refine ⟨by decide, by decide, by decide⟩

/-- C5: a record with `salary_min = salary_max = none` passes the salary
criterion of any criteria, and the full filter decision for such a record
coincides with the decision under the same criteria with both salary
bounds removed: absent salary data never disqualifies. -/
theorem absent_salary_never_disqualifies (c : Criteria) (r : UnifiedJobRecord)
    (hmin : r.salary_min = none) (hmax : r.salary_max = none) :
    salaryPass c r = true ∧
      filterMatches c r =
        filterMatches
          { c with salary_min_floor := none, salary_max_ceiling := none } r := by
  have hs : salaryPass c r = true := by
    unfold salaryPass
    rw [hmin, hmax]
    cases c.salary_min_floor <;> cases c.salary_max_ceiling <;> simp
  have hs2 :
      salaryPass { c with salary_min_floor := none, salary_max_ceiling := none } r
        = true := by
    unfold salaryPass
    simp
  refine ⟨hs, ?_⟩
  unfold filterMatches
  rw [hs, hs2]
  rfl

/-- C5 witness: a concrete no-salary record passes a filter with both a
salary floor and a salary ceiling. -/
theorem absent_salary_never_disqualifies_witness :
    salaryPass salaryCriteria recNoSalary = true ∧
      filterMatches salaryCriteria recNoSalary =
        filterMatches
          { salaryCriteria with
              salary_min_floor := none, salary_max_ceiling := none } recNoSalary :=
  absent_salary_never_disqualifies salaryCriteria recNoSalary rfl rfl

/-- C6: the two §8 scenario records (Adzuna with full salary data,
RemoteOK without) dedupe to exactly one record carrying Adzuna's salary
fields and the deduplicated union of both records' tags. -/
theorem dedupe_merge_scenario :
    dedupe [recAdzunaSE, recRemoteOKSE] =
      [{ recAdzunaSE with
          tags := (recAdzunaSE.tags ++ recRemoteOKSE.tags).dedup }] ∧
    (dedupe [recAdzunaSE, recRemoteOKSE]).length = 1 ∧
    (dedupe [recAdzunaSE, recRemoteOKSE]).map UnifiedJobRecord.salary_min
      = [some 90000] ∧
    (dedupe [recAdzunaSE, recRemoteOKSE]).map UnifiedJobRecord.salary_max
      = [some 120000] ∧
    (dedupe [recAdzunaSE, recRemoteOKSE]).map UnifiedJobRecord.source_name
      = [.adzuna] := by
  refine ⟨by decide, by decide, by decide, by decide, by decide⟩

/-! ## Claim theorems: frontend components -/

/-- C9: the PreferencesForm `salary_max` validate function skips the
`value < min` comparison whenever either number is falsy (0), so
`salary_min = 50000, salary_max = 0` is accepted (while
`salary_max = 40000` against the same minimum is rejected), and
`onSubmit` then hands `onSearch` data with `salary_max` numerically
below `salary_min`. -/
theorem preferences_form_salary_gap :
    validateSalaryMax 0 50000 = true ∧
    validateSalaryMax 50000 0 = true ∧
    validateSalaryMax 40000 50000 = false ∧
    (onSubmitFormat ⟨["Software Engineer"], [], [], 50000, 0⟩).salary_max <
      (onSubmitFormat ⟨["Software Engineer"], [], [], 50000, 0⟩).salary_min := by
  refine ⟨by decide, by decide, by decide, by decide⟩

/-- C10: when the search POST fails, `handleSearch` leaves `results`
unchanged and sets `searchError` to the server's detail message or the
fallback `"Failed to fetch job matches."`; on both the failure and the
success path `searching` ends up `false`. -/
theorem search_error_handling (st : SearchState) (detail : Option String)
    (data : List String) :
    (handleSearch st (.error detail)).results = st.results ∧
    ((handleSearch st (.error detail)).searchError =
      match detail with
      | some m => m
      | none => "Failed to fetch job matches.") ∧
    (handleSearch st (.error detail)).searching = false ∧
    (handleSearch st (.ok data)).searching = false := by
  cases detail <;> exact ⟨rfl, rfl, rfl, rfl⟩

/-! ## Claim theorems: per-source retry state machine -/

/-- C8: in the per-source state machine, `RETRYING` is entered only from
`FETCHING` on a `TransientFetchError` with attempts remaining; a
`PermanentFetchError` on the first attempt goes directly to `FAILED` and
`RETRYING` is never visited; under persistent transient errors the
machine reaches `FAILED` after the capped number of attempts
(`maxAttempts = 3`); and the backoff delay doubles with each attempt. -/
theorem retry_state_machine (o : Nat → AttemptResult) :
    (∀ s n, stepSource o s = .retrying n →
      s = .fetching n ∧ o n = .err .transient ∧ n + 1 < maxAttempts) ∧
    (o 0 = .err .permanent → (stepSource o)^[2] SourceState.pending = .failed) ∧
    (o 0 = .err .permanent →
      ∀ k n, (stepSource o)^[k] SourceState.pending ≠ .retrying n) ∧
    ((∀ n, o n = .err .transient) →
      (stepSource o)^[2 * maxAttempts] SourceState.pending = .failed) ∧
    (∀ n, backoffDelay (n + 1) = 2 * backoffDelay n) := by
  refine ⟨?_, ?_, ?_, ?_, ?_⟩
  · intro s n h
    cases s with
    | pending => simp [stepSource] at h
    | fetching m =>
      rcases ho : o m with _ | e
      · simp [stepSource, ho] at h
      · cases e with
        | transient =>
          by_cases hm : m + 1 < maxAttempts
          · simp [stepSource, ho, hm] at h
            exact ⟨by rw [h], by rw [← h]; exact ho, h ▸ hm⟩
          · simp [stepSource, ho, hm] at h
        | permanent => simp [stepSource, ho] at h
    | retrying m => simp [stepSource] at h
    | success => simp [stepSource] at h
    | failed => simp [stepSource] at h
  · intro hp
    have h2 : (stepSource o)^[2] SourceState.pending
        = stepSource o (stepSource o SourceState.pending) := by
      rw [Function.iterate_succ_apply', Function.iterate_succ_apply',
        Function.iterate_zero_apply]
    rw [h2]
    simp [stepSource, hp]
  · intro hp k n
    have inv : ∀ j, (stepSource o)^[j] SourceState.pending = .pending ∨
        (stepSource o)^[j] SourceState.pending = .fetching 0 ∨
        (stepSource o)^[j] SourceState.pending = .failed := by
      intro j
      induction j with
      | zero => exact Or.inl rfl
      | succ i ih =>
        rw [Function.iterate_succ_apply']
        rcases ih with h | h | h <;> rw [h]
        · exact Or.inr (Or.inl rfl)
        · exact Or.inr (Or.inr (by simp [stepSource, hp]))
        · exact Or.inr (Or.inr rfl)
    rcases inv k with h | h | h <;> simp [h]
  · intro ht
    have s1 : stepSource o SourceState.pending = .fetching 0 := rfl
    have s2 : stepSource o (.fetching 0) = .retrying 0 := by
      simp [stepSource, ht 0, maxAttempts]
    have s3 : stepSource o (.retrying 0) = .fetching 1 := rfl
    have s4 : stepSource o (.fetching 1) = .retrying 1 := by
      simp [stepSource, ht 1, maxAttempts]
    have s5 : stepSource o (.retrying 1) = .fetching 2 := rfl
    have s6 : stepSource o (.fetching 2) = .failed := by
      simp [stepSource, ht 2, maxAttempts]
    show (stepSource o)^[6] SourceState.pending = .failed
    simp [Function.iterate_succ_apply, Function.iterate_zero_apply,
      s1, s2, s3, s4, s5, s6]
  · intro n
    unfold backoffDelay
    rw [pow_succ]
    ring

/-- C8 witness: under all-transient outcomes the machine is failed after
`2 * maxAttempts` steps, and under a first-attempt permanent error it is
failed after two steps. -/
theorem retry_state_machine_witness :
    (stepSource (fun _ => AttemptResult.err .transient))^[2 * maxAttempts]
        SourceState.pending = .failed ∧
    (stepSource (fun _ => AttemptResult.err .permanent))^[2]
        SourceState.pending = .failed :=
  ⟨(retry_state_machine (fun _ => AttemptResult.err .transient)).2.2.2.1
      (fun _ => rfl),
   (retry_state_machine (fun _ => AttemptResult.err .permanent)).2.1 rfl⟩

/-! ## Claim theorems: determinism and ordering -/

/-- C7: `dedupe` and `filter` are pure functions, so repeated runs on the
same input agree definitionally; the substance proved here is that the
dedupe output is sorted by the contract order `recLe`, that the filter
engine returns an order-preserving sublist of its input, hence sorted
output stays sorted, and that `recLe` is exactly the contract order:
descending `posted_at`, undated records last, ties broken by source-name
alphabetical rank. The aggregated input itself is a function of the
per-source data only, so the ordering cannot depend on adapter completion
order. -/
theorem dedupe_filter_deterministic_order (rs : List UnifiedJobRecord) (c : Criteria) :
    List.Sorted recLe (dedupe rs) ∧
    (filterEngine c (dedupe rs)).Sublist (dedupe rs) ∧
    List.Sorted recLe (filterEngine c (dedupe rs)) ∧
    (∀ a b : UnifiedJobRecord,
      recLe a b ↔
        match a.posted_at, b.posted_at with
        | some x, some y =>
          y < x ∨ (x = y ∧ alphaRank a.source_name ≤ alphaRank b.source_name)
        | some _, none => True
        | none, some _ => False
        | none, none => alphaRank a.source_name ≤ alphaRank b.source_name) := by
  have hsorted : List.Sorted recLe (dedupe rs) :=
    List.sorted_insertionSort recLe (survivors rs)
  have hsub : (filterEngine c (dedupe rs)).Sublist (dedupe rs) :=
    List.filter_sublist _
  refine ⟨hsorted, hsub, List.Pairwise.sublist hsub hsorted, ?_⟩
  intro a b
  unfold recLe sortKey
  rcases ha : a.posted_at with _ | x <;> rcases hb : b.posted_at with _ | y <;>
    simp <;> omega

/-! ## Claim theorems: partial failure isolation -/

/-- Discriminator for successful fetch outcomes. -/
def isOk : FetchOutcome → Bool
  | .ok _ => true
  | .err _ => false

/-- Sources whose per-source contribution is empty can be dropped before
flattening. -/
theorem flatten_map_filter {α β : Type} (p : α → Bool) (f : α → List β)
    (h : ∀ a, p a = false → f a = []) :
    ∀ L : List α, ((L.filter p).map f).flatten = (L.map f).flatten := by
  intro L
  induction L with
  | nil => rfl
  | cons x xs ih =>
    by_cases hx : p x
    · simp [List.filter_cons, hx, ih]
    · simp only [Bool.not_eq_true] at hx
      simp [List.filter_cons, hx, ih, h x hx]

/-- C3: adapter failures never abort a run — the run's records are the
normalized, deduplicated, filtered union over exactly the successful
sources, the report has one entry per source, and every failed source is
reported `failed` with its `ErrorKind` while every successful source is
reported `success`. -/
theorem partial_failure_isolation (fetch : SourceName → FetchOutcome) (c : Criteria) :
    (runIngest fetch c).1 =
      filterEngine c (dedupe
        (((allSources.filter (fun s => isOk (fetch s))).map
            (sourceRecords fetch)).flatten)) ∧
    (runIngest fetch c).2.length = 8 ∧
    (∀ s e, fetch s = .err e →
      (⟨s, .failed, some e⟩ : SourceReport) ∈ (runIngest fetch c).2) ∧
    (∀ s items, fetch s = .ok items →
      (⟨s, .success, none⟩ : SourceReport) ∈ (runIngest fetch c).2) := by
  have hall : ∀ s : SourceName, s ∈ allSources := by
    intro s
    cases s <;> simp [allSources]
  refine ⟨?_, ?_, ?_, ?_⟩
  · unfold runIngest
    rw [flatten_map_filter (fun s => isOk (fetch s)) (sourceRecords fetch)]
    intro s hs
    unfold sourceRecords
    cases hf : fetch s
    · rw [hf] at hs
      simp [isOk] at hs
    · rfl
  · simp [runIngest, allSources]
  · intro s e hf
    refine List.mem_map.mpr ⟨s, hall s, ?_⟩
    simp [sourceReport, hf]
  · intro s items hf
    refine List.mem_map.mpr ⟨s, hall s, ?_⟩
    simp [sourceReport, hf]

/-- The fetch outcome map of the §8 partial-failure scenario: Jobicy,
SerpAPI and RemoteOK fail permanently, the other five sources succeed. -/
def fetch3 : SourceName → FetchOutcome
  | .jobicy => .err .permanent
  | .serpApi => .err .permanent
  | .remoteOK => .err .permanent
  | _ => .ok [rawCompetitiveItem]

/-- C3 witness: in the concrete 3-failed/5-succeeded scenario the report
marks a failed source `failed` with `PermanentFetchError` and a
successful source `success`. -/
theorem partial_failure_isolation_witness :
    (⟨.jobicy, .failed, some .permanent⟩ : SourceReport)
        ∈ (runIngest fetch3 emptyCriteria).2 ∧
    (⟨.adzuna, .success, none⟩ : SourceReport)
        ∈ (runIngest fetch3 emptyCriteria).2 :=
  ⟨(partial_failure_isolation fetch3 emptyCriteria).2.2.1 .jobicy .permanent rfl,
   (partial_failure_isolation fetch3 emptyCriteria).2.2.2 .adzuna
     [rawCompetitiveItem] rfl⟩

/-! ## Claim theorems: the salary invariant -/

/-- Whatever salary pair `fixSalary` emits with both bounds present is
correctly ordered. -/
theorem fixSalary_sound (mn mx : Option Nat) (a b : Nat)
    (h1 : (fixSalary mn mx).1 = some a) (h2 : (fixSalary mn mx).2 = some b) :
    a ≤ b := by
  cases mn with
  | none => simp [fixSalary] at h1
  | some x =>
    cases mx with
    | none => simp [fixSalary] at h2
    | some y =>
      by_cases hlt : y < x
      · simp [fixSalary, hlt] at h1 h2
        omega
      · simp [fixSalary, hlt] at h1 h2
        omega

/-- Every record the normalizer emits has its salary bounds correctly
ordered whenever both are present. -/
theorem normalize_ok_salary (s : SourceName) (raw : RawItem) (r : UnifiedJobRecord)
    (h : normalize s raw = .ok r) (a b : Nat)
    (hmin : r.salary_min = some a) (hmax : r.salary_max = some b) : a ≤ b := by
  unfold normalize at h
  split at h
  · exact (Except.noConfusion h)
  · injection h with h
    subst h
    simp only at hmin hmax
    by_cases hnum : (raw.salary_min.isSome || raw.salary_max.isSome) = true
    · rw [if_pos hnum] at hmin hmax
      exact fixSalary_sound _ _ a b hmin hmax
    · rw [if_neg hnum] at hmin hmax
      cases hstr : raw.salary_str with
      | some s =>
        simp only [hstr] at hmin hmax
        exact fixSalary_sound _ _ a b hmin hmax
      | none =>
        simp only [hstr] at hmin
        exact Option.noConfusion hmin

/-- The chosen base member of a group is one of its members. -/
theorem foldl_choose_mem (t : List UnifiedJobRecord) :
    ∀ (acc : UnifiedJobRecord) (S : List UnifiedJobRecord), acc ∈ S →
      (∀ r ∈ t, r ∈ S) →
      t.foldl (fun acc r => if betterBase r acc then r else acc) acc ∈ S := by
  induction t with
  | nil =>
    intro acc S hacc _
    simpa using hacc
  | cons x xs ih =>
    intro acc S hacc ht
    simp only [List.foldl_cons]
    by_cases hb : betterBase x acc
    · rw [if_pos hb]
      exact ih x S (ht x (by simp)) (fun r hr => ht r (by simp [hr]))
    · rw [if_neg hb]
      exact ih acc S hacc (fun r hr => ht r (by simp [hr]))

/-- `pickBase` selects a member of the group. -/
theorem pickBase_mem (hd : UnifiedJobRecord) (tl : List UnifiedJobRecord) :
    pickBase hd tl ∈ hd :: tl :=
  foldl_choose_mem tl hd (hd :: tl) (by simp) (fun r hr => by simp [hr])

/-- Every member of a survivors list is the merge of a nonempty group
whose members all come from the input. -/
theorem mem_survivors_shape {r : UnifiedJobRecord} {rs : List UnifiedJobRecord}
    (h : r ∈ survivors rs) :
    ∃ hd tl, r = mergeGroup hd tl ∧ ∀ x ∈ hd :: tl, x ∈ rs := by
  unfold survivors at h
  rcases List.mem_filterMap.mp h with ⟨k, _, hmerge⟩
  cases hg : groupFor rs k with
  | nil =>
    rw [hg] at hmerge
    exact Option.noConfusion hmerge
  | cons hd tl =>
    rw [hg] at hmerge
    injection hmerge with hmerge
    refine ⟨hd, tl, hmerge.symm, fun x hx => ?_⟩
    have : x ∈ groupFor rs k := hg ▸ hx
    exact List.mem_of_mem_filter this

/-- Every deduplicated record carries the salary fields of some input
record. -/
theorem mem_dedupe_salary {r : UnifiedJobRecord} {rs : List UnifiedJobRecord}
    (h : r ∈ dedupe rs) :
    ∃ b ∈ rs, r.salary_min = b.salary_min ∧ r.salary_max = b.salary_max := by
  rw [dedupe, List.mem_insertionSort] at h
  obtain ⟨hd, tl, rfl, hsub⟩ := mem_survivors_shape h
  exact ⟨pickBase hd tl, hsub _ (pickBase_mem hd tl), rfl, rfl⟩

/-- C2: every record in a run's output has `salary_min ≤ salary_max`
whenever both bounds are present, and an inverted pair in a source
payload is swapped by `fixSalary` (and a well-ordered pair passed
through) — never silently inverted. -/
theorem salary_invariant :
    (∀ (fetch : SourceName → FetchOutcome) (c : Criteria) (r : UnifiedJobRecord),
      r ∈ (runIngest fetch c).1 →
      ∀ a b : Nat, r.salary_min = some a → r.salary_max = some b → a ≤ b) ∧
    (∀ a b : Nat, b < a → fixSalary (some a) (some b) = (some b, some a)) ∧
    (∀ a b : Nat, ¬b < a → fixSalary (some a) (some b) = (some a, some b)) := by
  refine ⟨?_, ?_, ?_⟩
  · intro fetch c r hr a b hmin hmax
    have hr2 : r ∈ dedupe ((allSources.map (sourceRecords fetch)).flatten) :=
      List.mem_of_mem_filter hr
    obtain ⟨bRec, hbL, h1, h2⟩ := mem_dedupe_salary hr2
    rcases List.mem_flatten.mp hbL with ⟨l, hl, hbl⟩
    rcases List.mem_map.mp hl with ⟨s, _, rfl⟩
    unfold sourceRecords at hbl
    cases hf : fetch s with
    | err e =>
      rw [hf] at hbl
      exact absurd hbl (List.not_mem_nil _)
    | ok items =>
      rw [hf] at hbl
      unfold normalizeBatch at hbl
      rcases List.mem_filterMap.mp hbl with ⟨raw, _, hnorm⟩
      have hok : normalize s raw = .ok bRec := by
        cases hN : normalize s raw <;> rw [hN] at hnorm <;>
          simp [Except.toOption] at hnorm
        rw [hnorm]
      exact normalize_ok_salary s raw bRec hok a b (h1 ▸ hmin) (h2 ▸ hmax)
  · intro a b h
    simp [fixSalary, h]
  · intro a b h
    simp [fixSalary, h]

/-- A raw payload carrying an inverted salary pair. -/
def invRawItem : RawItem :=
  { id := "i1"
    title := "Cloud Architect"
    company := "Umbrella"
    location := "Portland"
    remote := false
    description := ""
    tags := []
    url := "https://example.com/i1"
    salary_min := some 160000
    salary_max := some 120000
    salary_str := none
    posted_at := some 10 }

/-- A fetch outcome map delivering only the inverted-salary payload. -/
def fetchInv : SourceName → FetchOutcome
  | .adzuna => .ok [invRawItem]
  | _ => .err .permanent

/-- The record the pipeline emits for `invRawItem`: the bounds arrive
swapped into the correct order. -/
def invOutRec : UnifiedJobRecord :=
  { source_id := "i1"
    source_name := .adzuna
    title := "Cloud Architect"
    company := "Umbrella"
    location := "Portland"
    description := ""
    tags := []
    url := "https://example.com/i1"
    salary_min := some 120000
    salary_max := some 160000
    posted_at := some 10
    extra := [] }

/-- C2 witness: the concrete inverted payload yields an output record
with ordered bounds, and `fixSalary` swaps the concrete inverted pair. -/
theorem salary_invariant_witness :
    invOutRec ∈ (runIngest fetchInv emptyCriteria).1 ∧
    (120000 : Nat) ≤ 160000 ∧
    fixSalary (some 160000) (some 120000) = (some 120000, some 160000) :=
  ⟨by decide,
   salary_invariant.1 fetchInv emptyCriteria invOutRec (by decide)
     120000 160000 rfl rfl,
   salary_invariant.2.1 160000 120000 (by decide)⟩

/-! ## Claim theorems: dedupe idempotence -/

/-- The survivor of a group carries the key of its base member. -/
theorem mergeGroup_key (hd : UnifiedJobRecord) (tl : List UnifiedJobRecord) :
    dedupKey (mergeGroup hd tl) = dedupKey (pickBase hd tl) :=
  rfl

/-- Every member of a key's group carries that key. -/
theorem groupFor_key {rs : List UnifiedJobRecord} {k : String × String × String}
    {x : UnifiedJobRecord} (hx : x ∈ groupFor rs k) : dedupKey x = k := by
  unfold groupFor at hx
  have h := List.of_mem_filter hx
  simp only [decide_eq_true_eq] at h
  exact h

/-- A `filterMap` whose function succeeds on every key and returns a
record with that key maps back onto the key list. -/
theorem filterMap_map_key (g : String × String × String → Option UnifiedJobRecord) :
    ∀ L : List (String × String × String),
      (∀ k ∈ L, ∃ r', g k = some r' ∧ dedupKey r' = k) →
      (L.filterMap g).map dedupKey = L := by
  intro L
  induction L with
  | nil => intro _; rfl
  | cons k ks ih =>
    intro H
    obtain ⟨r', hg, hk⟩ := H k (by simp)
    simp [List.filterMap_cons, hg, hk, ih (fun k' hk' => H k' (by simp [hk']))]

/-- The survivors carry exactly the deduplicated keys of the input, in
order. -/
theorem survivors_map_key (rs : List UnifiedJobRecord) :
    (survivors rs).map dedupKey = (rs.map dedupKey).dedup := by
  unfold survivors
  apply filterMap_map_key
  intro k hk
  have hk2 : k ∈ rs.map dedupKey := List.mem_dedup.mp hk
  rcases List.mem_map.mp hk2 with ⟨r, hr, rfl⟩
  cases hg : groupFor rs (dedupKey r) with
  | nil =>
    exfalso
    have hrg : r ∈ groupFor rs (dedupKey r) :=
      List.mem_filter.mpr ⟨hr, by simp⟩
    rw [hg] at hrg
    exact List.not_mem_nil _ hrg
  | cons hd tl =>
    have hp : pickBase hd tl ∈ groupFor rs (dedupKey r) := by
      rw [hg]
      exact pickBase_mem hd tl
    refine ⟨mergeGroup hd tl, rfl, ?_⟩
    rw [mergeGroup_key]
    exact groupFor_key hp

/-- Deduplicated output has pairwise distinct keys. -/
theorem dedupe_keys_nodup (rs : List UnifiedJobRecord) :
    ((dedupe rs).map dedupKey).Nodup := by
  have hp : (dedupe rs).Perm (survivors rs) :=
    List.perm_insertionSort recLe (survivors rs)
  have hm : ((dedupe rs).map dedupKey).Perm ((survivors rs).map dedupKey) :=
    hp.map dedupKey
  rw [hm.nodup_iff, survivors_map_key]
  exact List.nodup_dedup _

/-- Tags of deduplicated records are already deduplicated. -/
theorem tags_dedup_of_mem_dedupe {r : UnifiedJobRecord}
    {rs : List UnifiedJobRecord} (h : r ∈ dedupe rs) :
    r.tags.dedup = r.tags := by
  rw [dedupe, List.mem_insertionSort] at h
  obtain ⟨hd, tl, rfl, -⟩ := mem_survivors_shape h
  have htags : (mergeGroup hd tl).tags =
      (((hd :: tl).map UnifiedJobRecord.tags).flatten).dedup := rfl
  rw [htags, List.dedup_idem]

/-- With pairwise distinct keys, every record's group is the singleton of
that record. -/
theorem groupFor_self_of_nodup :
    ∀ rs : List UnifiedJobRecord, ((rs.map dedupKey).Nodup) →
      ∀ r ∈ rs, groupFor rs (dedupKey r) = [r] := by
  intro rs
  induction rs with
  | nil =>
    intro _ r hr
    exact absurd hr (List.not_mem_nil _)
  | cons x xs ih =>
    intro hn r hr
    rw [List.map_cons, List.nodup_cons] at hn
    obtain ⟨hx, hxs⟩ := hn
    rcases List.mem_cons.mp hr with rfl | hr'
    · unfold groupFor
      rw [List.filter_cons, if_pos (by simp)]
      have htail : xs.filter (fun y => decide (dedupKey y = dedupKey r)) = [] := by
        rw [List.filter_eq_nil_iff]
        intro a ha
        simp only [decide_eq_true_eq]
        intro hEq
        exact hx (hEq ▸ List.mem_map_of_mem dedupKey ha)
      rw [htail]
    · unfold groupFor
      have hne : decide (dedupKey x = dedupKey r) = false := by
        simp only [decide_eq_false_iff_not]
        intro hEq
        exact hx (hEq ▸ List.mem_map_of_mem dedupKey hr')
      rw [List.filter_cons, if_neg (by simp [hne])]
      exact ih hxs r hr'

/-- A `filterMap` by a function that fixes every member is the
identity. -/
theorem filterMap_id_of_some {α : Type} (g : α → Option α) :
    ∀ L : List α, (∀ a ∈ L, g a = some a) → L.filterMap g = L := by
  intro L
  induction L with
  | nil => intro _; rfl
  | cons a as ih =>
    intro H
    rw [List.filterMap_cons, H a (by simp), ih (fun b hb => H b (by simp [hb]))]

/-- Merging a singleton group of a record with deduplicated tags returns
the record. -/
theorem mergeGroup_single (r : UnifiedJobRecord) (h : r.tags.dedup = r.tags) :
    mergeGroup r [] = r := by
  unfold mergeGroup pickBase
  simp only [List.foldl_nil, List.map_cons, List.map_nil, List.flatten_cons,
    List.flatten_nil, List.append_nil, h]

/-- On input with pairwise distinct keys and deduplicated tags, the
survivors are the input itself. -/
theorem survivors_eq_self {rs : List UnifiedJobRecord}
    (hn : (rs.map dedupKey).Nodup)
    (ht : ∀ r ∈ rs, r.tags.dedup = r.tags) :
    survivors rs = rs := by
  unfold survivors
  rw [List.Nodup.dedup hn, List.filterMap_map]
  apply filterMap_id_of_some
  intro r hr
  show mergeList (groupFor rs (dedupKey r)) = some r
  rw [groupFor_self_of_nodup rs hn r hr]
  show some (mergeGroup r []) = some r
  rw [mergeGroup_single r (ht r hr)]

/-- C1: deduplication is idempotent — applying `dedupe` to its own output
returns the same records in the same order. -/
theorem dedupe_idempotent (rs : List UnifiedJobRecord) :
    dedupe (dedupe rs) = dedupe rs := by
  have h1 : survivors (dedupe rs) = dedupe rs :=
    survivors_eq_self (dedupe_keys_nodup rs)
      (fun r hr => tags_dedup_of_mem_dedupe hr)
  have hs : List.Sorted recLe (dedupe rs) :=
    List.sorted_insertionSort recLe (survivors rs)
  calc dedupe (dedupe rs)
      = List.insertionSort recLe (survivors (dedupe rs)) := rfl
    _ = List.insertionSort recLe (dedupe rs) := by rw [h1]
    _ = dedupe rs := hs.insertionSort_eq

end AIJobHunt
